import Mathlib

/-!
Shallow embedding of the `redis` enrichment table
(src/enrichment_tables/redis.rs) from the Kotodian/vector repository.

The table keeps an in-process cache, a `HashMap<String, ObjectMap>` behind an
`Arc<RwLock<..>>`, populated by a background task (`subscribe` driven by the
retry loop spawned in `Redis::new`) and queried through the
`vector_lib::enrichment::Table` implementation (`find_table_row`,
`find_table_rows`).

Modelling choices:
- The only values that flow through this table are strings (HGETALL yields
  `HashMap<String, String>`; rows hold `Value::from(String)`; the lookup key is
  `value.to_string_lossy()`), so vrl `Value` is embedded as `String` and
  `to_string_lossy` is the identity.
- `ObjectMap` (an ordered map) is embedded as an association list; the rows
  built here always have exactly the two entries "key" and "value".
- The shared `HashMap` cache is embedded as an association list with
  replace-on-insert semantics (`cacheInsert` / `cacheGet`), matching
  `HashMap::insert` / `HashMap::get`.
- Network effects (redis commands, psubscribe, the push-message channel) are
  embedded as explicit oracles and finite event traces passed to the
  functions that consume them.
-/

namespace RedisTable

/-- Field name / field value pairs of one Redis hash-record, as returned by
HGETALL (`HashMap<String, String>`; keys are distinct, iteration order is
arbitrary, so theorems that depend on the record contents carry a
no-duplicate-keys hypothesis). -/
abbrev Record := List (String × String)

/-- vrl ObjectMap restricted to the string values used by this table. -/
abbrev ObjectMap := List (String × String)

/-- The shared cache: `HashMap<String, ObjectMap>` embedded as an association
list with replace-on-insert semantics. -/
abbrev Cache := List (String × ObjectMap)

/-- HashMap::insert — replaces the binding for `k` if present, otherwise
appends a new binding. -/
def cacheInsert : Cache → String → ObjectMap → Cache
  | [], k, row => [(k, row)]
  | (k2, row2) :: rest, k, row =>
    if k2 = k then (k, row) :: rest else (k2, row2) :: cacheInsert rest k row

/-- HashMap::get (cloned), as used by Redis::lookup. -/
def cacheGet : Cache → String → Option ObjectMap
  | [], _ => none
  | (k, row) :: rest, f => if k = f then some row else cacheGet rest f

/-- The cache holds at most one row per lookup key. -/
def keysNodup (c : Cache) : Prop := (c.map Prod.fst).Nodup

/-- The row built by the materialization loop in subscribe:
`obj.insert("key", Value::from(sourceKey)); obj.insert("value", Value::from(v))`. -/
def mkRow (sourceKey v : String) : ObjectMap := [("key", sourceKey), ("value", v)]

/-- The row-materialization loop of subscribe (redis.rs lines 27-34 and
83-90): for every field of the fetched record, insert
`\x7bkey: sourceKey, value: fieldValue\x7d` under the field name. -/
def materialize (cache : Cache) (sourceKey : String) (record : Record) : Cache :=
  record.foldl (fun c fv => cacheInsert c fv.1 (mkRow sourceKey fv.2)) cache

/-- The `if let Some(datas) = datas` guard around the materialization loop:
an absent record (HGETALL returned nil) is a no-op. -/
def materializeOpt (cache : Cache) (sourceKey : String) : Option Record → Cache
  | none => cache
  | some record => materialize cache sourceKey record

/-- Value bound to field `f` by the last matching entry of the record, in the
order the materialization loop visits it. -/
def lookupLast : Record → String → Option String
  | [], _ => none
  | fv :: rest, f =>
    match lookupLast rest f with
    | some v => some v
    | none => if fv.1 = f then some fv.2 else none

theorem cacheGet_cacheInsert (c : Cache) (k : String) (row : ObjectMap) (f : String) :
    cacheGet (cacheInsert c k row) f = if k = f then some row else cacheGet c f := by
  induction c with
  | nil => simp [cacheInsert, cacheGet]
  | cons p rest ih =>
    obtain ⟨k2, row2⟩ := p
    by_cases hk : k2 = k
    · subst hk
      by_cases hf : k2 = f <;> simp [cacheInsert, cacheGet, hf]
    · by_cases hf : k2 = f
      · subst hf
        have hk2 : ¬ k = k2 := fun h => hk h.symm
        simp [cacheInsert, cacheGet, hk, hk2]
      · simp [cacheInsert, cacheGet, hk, hf, ih]

theorem materialize_cons (cache : Cache) (K : String) (fv : String × String)
    (rest : Record) :
    materialize cache K (fv :: rest)
      = materialize (cacheInsert cache fv.1 (mkRow K fv.2)) K rest := rfl

/-- Master lemma: a lookup against the materialized cache returns the row for
the last occurrence of the field in the record, and falls back to the previous
cache contents for fields the record does not mention. -/
theorem cacheGet_materialize (cache : Cache) (K : String) (record : Record) (f : String) :
    cacheGet (materialize cache K record) f =
      match lookupLast record f with
      | some v => some (mkRow K v)
      | none => cacheGet cache f := by
  induction record generalizing cache with
  | nil => rfl
  | cons fv rest ih =>
    rw [materialize_cons, ih]
    cases h : lookupLast rest f with
    | some v => simp [lookupLast, h]
    | none =>
      by_cases hf : fv.1 = f <;>
        simp [lookupLast, h, cacheGet_cacheInsert, hf]

theorem lookupLast_eq_none (record : Record) (f : String)
    (h : f ∉ record.map Prod.fst) : lookupLast record f = none := by
  induction record with
  | nil => rfl
  | cons fv rest ih =>
    simp only [List.map_cons, List.mem_cons] at h
    push_neg at h
    have hne : fv.1 ≠ f := fun he => h.1 he.symm
    simp [lookupLast, ih h.2, hne]

theorem lookupLast_eq_some (record : Record) (f v : String)
    (hnd : (record.map Prod.fst).Nodup) (hmem : (f, v) ∈ record) :
    lookupLast record f = some v := by
  induction record with
  | nil => cases hmem
  | cons fv rest ih =>
    simp only [List.map_cons, List.nodup_cons] at hnd
    cases hmem with
    | head =>
      have : lookupLast rest f = none := lookupLast_eq_none rest f hnd.1
      simp [lookupLast, this]
    | tail _ hmem2 =>
      simp [lookupLast, ih hnd.2 hmem2]

theorem mem_keys_cacheInsert (c : Cache) (k : String) (row : ObjectMap) (f : String) :
    f ∈ (cacheInsert c k row).map Prod.fst ↔ f = k ∨ f ∈ c.map Prod.fst := by
  induction c with
  | nil => simp [cacheInsert]
  | cons p rest ih =>
    obtain ⟨k2, row2⟩ := p
    by_cases hk : k2 = k
    · subst hk
      simp [cacheInsert]
    · simp [cacheInsert, hk, ih]
      tauto

theorem keysNodup_cacheInsert (c : Cache) (k : String) (row : ObjectMap)
    (h : keysNodup c) : keysNodup (cacheInsert c k row) := by
  induction c with
  | nil => simp [cacheInsert, keysNodup]
  | cons p rest ih =>
    obtain ⟨k2, row2⟩ := p
    simp only [keysNodup, List.map_cons, List.nodup_cons] at h
    by_cases hk : k2 = k
    · subst hk
      simpa [cacheInsert, keysNodup] using h
    · have hrest := ih h.2
      simp only [cacheInsert, hk, if_false, keysNodup, List.map_cons, List.nodup_cons]
      refine ⟨fun hmem => ?_, hrest⟩
      rcases (mem_keys_cacheInsert rest k row k2).1 hmem with he | hmem2
      · exact hk he
      · exact h.1 hmem2

theorem keysNodup_materialize (cache : Cache) (K : String) (record : Record)
    (h : keysNodup cache) : keysNodup (materialize cache K record) := by
  induction record generalizing cache with
  | nil => exact h
  | cons fv rest ih =>
    rw [materialize_cons]
    exact ih _ (keysNodup_cacheInsert cache fv.1 (mkRow K fv.2) h)

/-! ## Configuration and the table struct -/

/-- RedisConfig (redis.rs lines 105-119). -/
structure RedisConfig where
  host : String
  password : Option String
  db : Nat
  keys : List String
  sentinel_master : Option String
deriving DecidableEq

/-- The Redis table struct: configuration plus a handle on the shared cache. -/
structure Redis where
  config : RedisConfig
  cache : Cache
deriving DecidableEq

/-- vector_lib::enrichment::Case (ignored by this table). -/
inductive Case
  | sensitive
  | insensitive
deriving DecidableEq

/-- vector_lib::enrichment::IndexHandle. -/
structure IndexHandle where
  handle : Nat
deriving DecidableEq

/-- vector_lib::enrichment::Condition, with vrl Value embedded as String and
dates as integer timestamps; every constructor except equals is a
non-equality condition. -/
inductive Condition
  | equals (field : String) (value : String)
  | betweenDates (field : String) (lo hi : Int)
  | fromDate (field : String) (lo : Int)
  | toDate (field : String) (hi : Int)
deriving DecidableEq

/-- Redis::lookup (redis.rs lines 260-262). -/
def Redis.lookup (t : Redis) (field : String) : Option ObjectMap :=
  cacheGet t.cache field

/-- Redis::find_table_row (redis.rs lines 266-288): matches on
condition.first(); a first equality condition on the fixed field name "field"
triggers a cache lookup, everything else is the usage-rejection error. -/
def Redis.find_table_row (t : Redis) (_cs : Case) (condition : List Condition)
    (_sel : Option (List String)) (_idx : Option IndexHandle) :
    Except String ObjectMap :=
  match condition.head? with
  | some (Condition.equals field value) =>
    if field = "field" then
      match t.lookup value with
      | some obj => Except.ok obj
      | none => Except.error "No value found"
    else Except.error "Only equality condition is allowed"
  | _ => Except.error "Only equality condition is allowed"

/-- Redis::find_table_rows (redis.rs lines 289-298): find_table_row wrapped
into a one-element vector. -/
def Redis.find_table_rows (t : Redis) (cs : Case) (condition : List Condition)
    (sel : Option (List String)) (idx : Option IndexHandle) :
    Except String (List ObjectMap) :=
  (t.find_table_row cs condition sel idx).map (fun row => [row])

/-- Redis::add_index (redis.rs lines 300-302). -/
def Redis.add_index (_t : Redis) (_cs : Case) (_fields : List String) :
    Except String IndexHandle :=
  Except.ok ⟨0⟩

/-- Redis::index_fields (redis.rs lines 304-306). -/
def Redis.index_fields (_t : Redis) : List (Case × List String) := []

/-- Redis::needs_reload (redis.rs lines 308-310). -/
def Redis.needs_reload (_t : Redis) : Bool := false

/-! ## Construction (Redis::new, redis.rs lines 168-258) -/

/-- get_redis_url (redis.rs lines 143-159). -/
def get_redis_url (host : String) (password : Option String) (db : Option Nat) : String :=
  match password with
  | some pw =>
    let url := "redis://" ++ pw ++ "@" ++ host
    let url := match db with
      | some d => url ++ "/" ++ toString d
      | none => url
    url ++ "/?protocol=resp3"
  | none =>
    let url := "redis://" ++ host
    let url := match db with
      | some d => url ++ "/" ++ toString d
      | none => url
    url ++ "/?protocol=resp3"

/-- Errors Redis::new returns through crate::Result: the two &str validation
errors, or a propagated redis::Client::open error. -/
inductive NewError
  | emptyHost
  | emptyKeys
  | clientOpen (e : String)
deriving DecidableEq

/-- Error message carried by each NewError, as written in the source. -/
def NewError.message : NewError → String
  | .emptyHost => "Redis host cannot be empty"
  | .emptyKeys => "Redis keys cannot be empty"
  | .clientOpen e => e

/-- Observable outcome of Redis::new: a table whose cache starts empty, a
returned error, or a process abort (the .unwrap() on SentinelClient::build). -/
inductive NewOutcome
  | ok (table : Redis)
  | err (e : NewError)
  | panicked
deriving DecidableEq

/-- Redis::new (redis.rs lines 170-258). The outcomes of the two fallible
external constructors are supplied as oracle arguments:
`sentinelBuildFails` stands for SentinelClient::build returning Err (its
result is unwrapped, so a failure aborts the process), and `clientOpen`
stands for redis::Client::open, whose error is propagated with the ?
operator. On success the cache handed to the returned table is empty; the
spawned supervisor task is modelled separately (supervisorRun below). -/
def Redis.new (config : RedisConfig) (sentinelBuildFails : Bool)
    (clientOpen : Option String) : NewOutcome :=
  if config.host = "" then .err .emptyHost
  else if config.keys = [] then .err .emptyKeys
  else
    match config.sentinel_master with
    | some _ =>
      if sentinelBuildFails then .panicked
      else .ok { config := config, cache := [] }
    | none =>
      match clientOpen with
      | some e => .err (.clientOpen e)
      | none => .ok { config := config, cache := [] }

/-! ## The background synchronization task (subscribe, redis.rs lines 13-103,
and the retry loop of Redis::new, lines 215-252) -/

/-- Fixed retry delay, in seconds (RETRY_AFTER, redis.rs line 11). -/
def RETRY_AFTER : Nat := 5

/-- Result of one HGETALL: Err is a redis error, Ok none an absent key,
Ok (some record) the fetched hash-record. -/
abbrev FetchResult := Except String (Option Record)

/-- A backoff::Error::retry_after value: the wrapped redis error together
with the fixed retry delay attached to it. -/
structure RetriableError where
  msg : String
  retryAfterSecs : Nat
deriving DecidableEq

/-- The bootstrap loop of subscribe (redis.rs lines 21-35): HGETALL each
configured key in order, materializing each fetched record into the shared
cache; the first fetch error aborts the pass with a retriable error, leaving
rows already written in the shared cache. -/
def bootstrap (fetch : String → FetchResult) : Cache → List String → Cache × Option RetriableError
  | cache, [] => (cache, none)
  | cache, key :: rest =>
    match fetch key with
    | .error e => (cache, some ⟨e, RETRY_AFTER⟩)
    | .ok r => bootstrap fetch (materializeOpt cache key r) rest

/-- The psubscribe loop of subscribe (redis.rs lines 36-41): the first
failing registration aborts with a retriable error. -/
def psubscribeAll (psub : String → Option String) : List String → Option RetriableError
  | [] => none
  | key :: rest =>
    match psub key with
    | some e => some ⟨e, RETRY_AFTER⟩
    | none => psubscribeAll psub rest

/-- redis::PushKind, restricted to the kinds this code distinguishes. -/
inductive PushKind
  | pMessage
  | disconnection
  | otherKind
deriving DecidableEq

/-- redis::Value as it appears in push-message payloads. -/
inductive RedisValue
  | bulkString (s : String)
  | otherValue
deriving DecidableEq

/-- redis::PushInfo. -/
structure PushInfo where
  kind : PushKind
  data : List RedisValue
deriving DecidableEq

/-- The keyspace-channel name for database db, up to the key name. -/
def keyspacePat (db : Nat) : String := "__keyspace@" ++ toString db ++ "__:"

/-- Key extraction from a push message (redis.rs lines 55-76): keep the bulk
strings that start with the keyspace channel pattern, strip it, take the
first. -/
def extractKey (db : Nat) (data : List RedisValue) : Option String :=
  (data.filterMap (fun v =>
    match v with
    | RedisValue.bulkString s =>
      if s.startsWith (keyspacePat db) then some (s.drop (keyspacePat db).length)
      else none
    | RedisValue.otherValue => none)).head?

/-- The message loop of subscribe (redis.rs lines 42-102) run over a finite
trace of recv results (none models the channel returning None). Returns the
cache together with some retriable error if the loop returned, or none if
the modelled trace was exhausted with the loop still running. -/
def processMessages (db : Nat) (fetch : String → FetchResult) :
    Cache → List (Option PushInfo) → Cache × Option RetriableError
  | cache, [] => (cache, none)
  | cache, none :: _ => (cache, some ⟨"Redis connection closed", RETRY_AFTER⟩)
  | cache, some msg :: rest =>
    if msg.kind = PushKind.disconnection then
      (cache, some ⟨"Redis connection closed", RETRY_AFTER⟩)
    else if msg.data ≠ [] ∧ msg.kind = PushKind.pMessage then
      match extractKey db msg.data with
      | some key =>
        match fetch key with
        | .error e => (cache, some ⟨e, RETRY_AFTER⟩)
        | .ok r => processMessages db fetch (materializeOpt cache key r) rest
      | none => processMessages db fetch cache rest
    else processMessages db fetch cache rest

/-- External outcomes consumed by one run of subscribe: the HGETALL oracle,
the psubscribe oracle, and the trace of pushed messages. -/
structure SubscribeEnv where
  fetch : String → FetchResult
  psub : String → Option String
  messages : List (Option PushInfo)

/-- subscribe (redis.rs lines 13-103): bootstrap, then register the pattern
subscriptions, then consume messages. The only way it finishes is by
returning a retriable error; a none second component means the modelled
message trace ran out while the loop was still running. -/
def subscribeRun (keys : List String) (db : Nat) (env : SubscribeEnv)
    (cache : Cache) : Cache × Option RetriableError :=
  match bootstrap env.fetch cache keys with
  | (c, some e) => (c, some e)
  | (c, none) =>
    match psubscribeAll env.psub keys with
    | some e => (c, some e)
    | none => processMessages db env.fetch c env.messages

/-- External outcomes consumed by one iteration of the supervisor loop:
the connection attempt's error, if any, and the environment handed to
subscribe when the connection succeeds. -/
structure IterEnv where
  connectResult : Option String
  sub : SubscribeEnv

/-- What one iteration of the supervisor loop does next: sleep for the given
delay and re-enter the connecting stage, or keep streaming (the modelled
message trace was exhausted inside subscribe). The loop in Redis::new has no
break or return, so no terminating outcome exists. -/
inductive IterOutcome
  | retryAfterDelay (delaySecs : Nat) (cache : Cache)
  | streaming (cache : Cache)

/-- One iteration of the supervisor loop spawned by Redis::new (redis.rs
lines 215-252): a connection failure sleeps RETRY_AFTER and continues; a
subscribe error sleeps RETRY_AFTER and continues. -/
def supervisorIteration (keys : List String) (db : Nat) (env : IterEnv)
    (cache : Cache) : IterOutcome :=
  match env.connectResult with
  | some _ => .retryAfterDelay RETRY_AFTER cache
  | none =>
    let s := subscribeRun keys db env.sub cache
    match s.2 with
    | some _ => .retryAfterDelay RETRY_AFTER s.1
    | none => .streaming s.1

/-- The supervisor loop over a finite trace of per-iteration environments:
returns the final cache and the total seconds slept in retry delays. One
environment is consumed per iteration; the loop itself never exits. -/
def supervisorRun (keys : List String) (db : Nat) :
    List IterEnv → Cache → Cache × Nat
  | [], cache => (cache, 0)
  | env :: rest, cache =>
    match supervisorIteration keys db env cache with
    | .retryAfterDelay d c =>
      let r := supervisorRun keys db rest c
      (r.1, d + r.2)
    | .streaming c => (c, 0)

/-- applyFetch describes the cache state a successful bootstrap pass builds
key by key: fetch the key and materialize the result. -/
def applyFetch (fetch : String → FetchResult) (cache : Cache) (key : String) : Cache :=
  match fetch key with
  | .ok r => materializeOpt cache key r
  | .error _ => cache

/-! ## Claim theorems -/

/-- C7: the Row Materializer is idempotent — applying the materialization
step twice with the identical record leaves exactly the same Cache Store
contents (the same row under every lookup key) as applying it once. -/
theorem materialize_idempotent (cache : Cache) (K : String) (record : Record)
    (f : String) :
    cacheGet (materialize (materialize cache K record) K record) f
      = cacheGet (materialize cache K record) f := by
  cases h : lookupLast record f with
  | some v => simp [cacheGet_materialize, h]
  | none => simp [cacheGet_materialize, h]

/-- C10: find_table_rows never returns a successful empty sequence — it is
Ok [row] exactly when find_table_row is Ok row, and propagates the same
error otherwise. -/
theorem find_table_rows_singleton (t : Redis) (cs : Case)
    (condition : List Condition) (sel : Option (List String))
    (idx : Option IndexHandle) :
    (t.find_table_rows cs condition sel idx
      = match t.find_table_row cs condition sel idx with
        | .ok row => .ok [row]
        | .error e => .error e)
    ∧ t.find_table_rows cs condition sel idx ≠ .ok [] := by
  cases h : t.find_table_row cs condition sel idx with
  | ok row =>
    refine ⟨?_, ?_⟩ <;> simp [Redis.find_table_rows, Except.map, h]
  | error e =>
    refine ⟨?_, ?_⟩ <;> simp [Redis.find_table_rows, Except.map, h]

/-- C9: Redis::new with an empty host or an empty key list returns the
corresponding construction error to the caller; with both non-empty, neither
of the two validation errors is returned. -/
theorem new_validation (config : RedisConfig) (sb : Bool) (co : Option String) :
    ((config.host = "" ∨ config.keys = []) →
      (Redis.new config sb co = .err .emptyHost
        ∨ Redis.new config sb co = .err .emptyKeys))
    ∧ (config.host ≠ "" → config.keys ≠ [] →
        Redis.new config sb co ≠ .err .emptyHost
        ∧ Redis.new config sb co ≠ .err .emptyKeys) := by
  constructor
  · rintro (h | h)
    · left
      simp [Redis.new, h]
    · by_cases hh : config.host = ""
      · left
        simp [Redis.new, hh]
      · right
        simp [Redis.new, hh, h]
  · intro hh hk
    rcases hsm : config.sentinel_master with _ | m <;>
      rcases co with _ | e <;> cases sb <;>
        simp [Redis.new, hh, hk, hsm]

/-- C9 witness. -/
theorem new_validation_witness :
    Redis.new ⟨"", none, 0, ["app_map"], none⟩ false none = .err .emptyHost
    ∨ Redis.new ⟨"", none, 0, ["app_map"], none⟩ false none = .err .emptyKeys :=
  (new_validation ⟨"", none, 0, ["app_map"], none⟩ false none).1 (Or.inl rfl)

/-- C4: after materializing a fetched record for source key K, every field
(f, v) of the record is mapped to the row with exactly the two entries
key = K and value = v, and cacheGet serves it; a field mentioned in no
synchronized record keeps its previous (absent) binding, so find_table_row
on it is the not-found error. -/
theorem materialize_lookup (cache : Cache) (K : String) (record : Record)
    (hnd : (record.map Prod.fst).Nodup) :
    (∀ fv ∈ record,
      cacheGet (materialize cache K record) fv.1 = some (mkRow K fv.2))
    ∧ (∀ g, g ∉ record.map Prod.fst →
        cacheGet (materialize cache K record) g = cacheGet cache g)
    ∧ (∀ (g : String) (cfg : RedisConfig) (cs : Case) (sel : Option (List String))
          (idx : Option IndexHandle),
        g ∉ record.map Prod.fst → cacheGet cache g = none →
        Redis.find_table_row ⟨cfg, materialize cache K record⟩ cs
            [Condition.equals "field" g] sel idx
          = .error "No value found") := by
  have habsent : ∀ g, g ∉ record.map Prod.fst →
      cacheGet (materialize cache K record) g = cacheGet cache g := by
    intro g hg
    rw [cacheGet_materialize, lookupLast_eq_none record g hg]
  refine ⟨?_, habsent, ?_⟩
  · intro fv hmem
    rw [cacheGet_materialize, lookupLast_eq_some record fv.1 fv.2 hnd hmem]
  · intro g cfg cs sel idx hg hnone
    have : cacheGet (materialize cache K record) g = none := by
      rw [habsent g hg, hnone]
    simp [Redis.find_table_row, Redis.lookup, this]

/-- C4 witness. -/
theorem materialize_lookup_witness :
    cacheGet (materialize [] "app_map" [("svc-1", "prod"), ("svc-2", "staging")])
        "svc-1"
      = some (mkRow "app_map" "prod")
    ∧ Redis.find_table_row
        ⟨⟨"localhost:6379", none, 0, ["app_map"], none⟩,
          materialize [] "app_map" [("svc-1", "prod"), ("svc-2", "staging")]⟩
        Case.sensitive [Condition.equals "field" "svc-9"] none none
      = .error "No value found" :=
  ⟨(materialize_lookup [] "app_map" [("svc-1", "prod"), ("svc-2", "staging")]
      (by decide)).1 ("svc-1", "prod") (by decide),
   (materialize_lookup [] "app_map" [("svc-1", "prod"), ("svc-2", "staging")]
      (by decide)).2.2 "svc-9" ⟨"localhost:6379", none, 0, ["app_map"], none⟩
      Case.sensitive none none (by decide) rfl⟩

/-- C5: the empty cache and every cache produced by materialization hold at
most one row per lookup key, and when two records are materialized in
sequence and the later one contains field f, the cache afterwards serves
the later record's row for f (last-write-wins). -/
theorem cache_single_row_lww :
    keysNodup []
    ∧ (∀ (cache : Cache) (K : String) (record : Record),
        keysNodup cache → keysNodup (materialize cache K record))
    ∧ (∀ (cache : Cache) (KA KB : String) (rA rB : Record) (f v : String),
        (rB.map Prod.fst).Nodup → f ∈ rA.map Prod.fst → (f, v) ∈ rB →
        cacheGet (materialize (materialize cache KA rA) KB rB) f
          = some (mkRow KB v)) := by
  refine ⟨by simp [keysNodup], keysNodup_materialize, ?_⟩
  intro cache KA KB rA rB f v hnd _hfA hfB
  rw [cacheGet_materialize, lookupLast_eq_some rB f v hnd hfB]

/-- C5 witness. -/
theorem cache_single_row_lww_witness :
    keysNodup (materialize [] "A" [("f", "1")])
    ∧ cacheGet (materialize (materialize [] "A" [("f", "1")]) "B" [("f", "2")]) "f"
        = some (mkRow "B" "2") :=
  ⟨cache_single_row_lww.2.1 [] "A" [("f", "1")] cache_single_row_lww.1,
   cache_single_row_lww.2.2 [] "A" "B" [("f", "1")] [("f", "2")] "f" "2"
     (by decide) (by decide) (by decide)⟩

/-- C6: materialization never deletes — a record that no longer contains a
cached lookup key leaves its binding untouched, an absent record is a no-op,
and any key bound before a materialization pass is still bound to some row
after it. -/
theorem no_delete (cache : Cache) (K : String) :
    (∀ (record : Record) (g : String), g ∉ record.map Prod.fst →
      cacheGet (materialize cache K record) g = cacheGet cache g)
    ∧ materializeOpt cache K none = cache
    ∧ (∀ (record : Record) (k : String) (row : ObjectMap),
        cacheGet cache k = some row →
        ∃ row2, cacheGet (materialize cache K record) k = some row2) := by
  refine ⟨?_, rfl, ?_⟩
  · intro record g hg
    rw [cacheGet_materialize, lookupLast_eq_none record g hg]
  · intro record k row h
    cases hl : lookupLast record k with
    | some v =>
      exact ⟨mkRow K v, by simp [cacheGet_materialize, hl]⟩
    | none =>
      exact ⟨row, by simp [cacheGet_materialize, hl, h]⟩

/-- C6 witness. -/
theorem no_delete_witness :
    cacheGet (materialize [("g", mkRow "A" "0")] "B" [("h2", "1")]) "g"
      = cacheGet [("g", mkRow "A" "0")] "g"
    ∧ ∃ row2,
        cacheGet (materialize [("g", mkRow "A" "0")] "B" [("h2", "1")]) "g"
          = some row2 :=
  ⟨(no_delete [("g", mkRow "A" "0")] "B").1 [("h2", "1")] "g" (by decide),
   (no_delete [("g", mkRow "A" "0")] "B").2.2 [("h2", "1")] "g" (mkRow "A" "0")
     (by decide)⟩

/-- C1 counterexample: a call with two conditions — the second of them even a
non-equality condition — is not rejected as a usage error: with the first
condition a valid equality on "field" and an empty cache it returns the
not-found error instead. -/
theorem find_table_row_counterexample :
    Redis.find_table_row ⟨⟨"localhost:6379", none, 0, ["app_map"], none⟩, []⟩
        Case.sensitive
        [Condition.equals "field" "x", Condition.betweenDates "d" 0 1] none none
      = .error "No value found"
    ∧ "No value found" ≠ "Only equality condition is allowed" :=
  ⟨rfl, by decide⟩

/-- C1 amended: find_table_row examines only the first condition. It returns
the usage-rejection error exactly when the list is empty, the first condition
is a non-equality condition, or the first condition is an equality on a field
other than "field"; conditions after the first are ignored. -/
theorem find_table_row_rejections :
    (∀ (t : Redis) (cs : Case) (conds : List Condition)
        (sel : Option (List String)) (idx : Option IndexHandle),
      (conds.head? = none
        ∨ (∃ f lo hi, conds.head? = some (Condition.betweenDates f lo hi))
        ∨ (∃ f lo, conds.head? = some (Condition.fromDate f lo))
        ∨ (∃ f hi, conds.head? = some (Condition.toDate f hi))
        ∨ (∃ f v, conds.head? = some (Condition.equals f v) ∧ f ≠ "field")) →
      t.find_table_row cs conds sel idx
        = .error "Only equality condition is allowed")
    ∧ (∀ (t : Redis) (cs : Case) (v : String) (rest : List Condition)
        (sel : Option (List String)) (idx : Option IndexHandle),
      t.find_table_row cs (Condition.equals "field" v :: rest) sel idx
        = t.find_table_row cs [Condition.equals "field" v] sel idx) := by
  constructor
  · intro t cs conds sel idx h
    rcases h with h | ⟨f, lo, hi, h⟩ | ⟨f, lo, h⟩ | ⟨f, hi, h⟩ | ⟨f, v, h, hne⟩
    · simp [Redis.find_table_row, h]
    · simp [Redis.find_table_row, h]
    · simp [Redis.find_table_row, h]
    · simp [Redis.find_table_row, h]
    · simp [Redis.find_table_row, h, hne]
  · intro t cs v rest sel idx
    rfl

/-- C1 amended witness. -/
theorem find_table_row_rejections_witness :
    Redis.find_table_row ⟨⟨"localhost:6379", none, 0, ["app_map"], none⟩, []⟩
        Case.sensitive [] none none
      = .error "Only equality condition is allowed" :=
  find_table_row_rejections.1 ⟨⟨"localhost:6379", none, 0, ["app_map"], none⟩, []⟩
    Case.sensitive [] none none (Or.inl rfl)

/-- Fetch oracle where key k1 holds a record and every other key fails. -/
def fetchC2 : String → FetchResult := fun k =>
  if k = "k1" then .ok (some [("f", "v")]) else .error "connection reset"

/-- C2 counterexample: when the bootstrap fetch for the second key fails, the
pass aborts with a retriable error, but the rows materialized from the first
key are already in the shared cache and find_table_row serves them. -/
theorem bootstrap_partial_counterexample :
    (bootstrap fetchC2 [] ["k1", "k2"]).2 = some ⟨"connection reset", RETRY_AFTER⟩
    ∧ cacheGet (bootstrap fetchC2 [] ["k1", "k2"]).1 "f" = some (mkRow "k1" "v")
    ∧ Redis.find_table_row
        ⟨⟨"localhost:6379", none, 0, ["k1", "k2"], none⟩,
          (bootstrap fetchC2 [] ["k1", "k2"]).1⟩
        Case.sensitive [Condition.equals "field" "f"] none none
      = .ok (mkRow "k1" "v") :=
  ⟨rfl, rfl, rfl⟩

/-- C2 amended: a fetch failure for one key aborts the bootstrap pass with a
retriable error and the keys after it are never fetched, but the pass is not
all-or-nothing — the rows materialized from the keys fetched before the
failure stay in the shared Cache Store (and, per the counterexample, are
served to lookups). -/
theorem bootstrap_abort (fetch : String → FetchResult) (cache : Cache)
    (pre : List String) (kbad : String) (post : List String) (e : String)
    (hpre : ∀ k ∈ pre, ∃ r, fetch k = .ok r)
    (hbad : fetch kbad = .error e) :
    bootstrap fetch cache (pre ++ kbad :: post)
      = (pre.foldl (applyFetch fetch) cache, some ⟨e, RETRY_AFTER⟩) := by
  induction pre generalizing cache with
  | nil => simp [bootstrap, hbad]
  | cons k pre2 ih =>
    obtain ⟨r, hk⟩ := hpre k (List.mem_cons_self k pre2)
    have hfold : applyFetch fetch cache k = materializeOpt cache k r := by
      simp [applyFetch, hk]
    simp only [List.cons_append, bootstrap, hk, List.foldl_cons, hfold]
    exact ih (materializeOpt cache k r)
      (fun k2 hk2 => hpre k2 (List.mem_cons_of_mem k hk2))

/-- C2 amended witness. -/
theorem bootstrap_abort_witness :
    bootstrap fetchC2 [] (["k1"] ++ "k2" :: [])
      = (["k1"].foldl (applyFetch fetchC2) [], some ⟨"connection reset", RETRY_AFTER⟩) :=
  bootstrap_abort fetchC2 [] ["k1"] "k2" [] "connection reset"
    (by
      intro k hk
      simp only [List.mem_singleton] at hk
      subst hk
      exact ⟨some [("f", "v")], rfl⟩)
    rfl

/-- C3: with sentinel_master configured and SentinelClient::build failing,
Redis::new aborts the process (the .unwrap() on the build result) instead of
returning a construction error to the caller. -/
theorem new_sentinel_build_aborts :
    Redis.new ⟨"host-a,host-b", none, 0, ["app_map"], some "mymaster"⟩ true none
      = NewOutcome.panicked := rfl

/-- C8: every failure — connection error, bootstrap fetch error, psubscribe
error, disconnect push, or channel end — makes the supervisor iteration sleep
the fixed RETRY_AFTER delay and re-enter the connecting stage; the loop
consumes every environment of an all-failing trace (no retry limit), a closed
channel or a disconnection push ends subscribe with the retriable
connection-closed error, and the only errors find_table_row can hand a lookup
caller are the two lookup strings, never a connectivity error. -/
theorem supervisor_retry_forever (keys : List String) (db : Nat) (cache : Cache) :
    (∀ env : IterEnv,
      (env.connectResult ≠ none ∨ (subscribeRun keys db env.sub cache).2 ≠ none) →
      ∃ c, supervisorIteration keys db env cache = .retryAfterDelay RETRY_AFTER c)
    ∧ (∀ (envs : List IterEnv) (c : Cache),
        (∀ e ∈ envs, e.connectResult ≠ none) →
        (supervisorRun keys db envs c).2 = RETRY_AFTER * envs.length)
    ∧ (∀ (fetch : String → FetchResult) (rest : List (Option PushInfo)),
        (processMessages db fetch cache (none :: rest)).2
          = some ⟨"Redis connection closed", RETRY_AFTER⟩)
    ∧ (∀ (fetch : String → FetchResult) (msg : PushInfo)
          (rest : List (Option PushInfo)),
        msg.kind = PushKind.disconnection →
        (processMessages db fetch cache (some msg :: rest)).2
          = some ⟨"Redis connection closed", RETRY_AFTER⟩)
    ∧ (∀ (t : Redis) (cs : Case) (conds : List Condition)
          (sel : Option (List String)) (idx : Option IndexHandle) (e : String),
        t.find_table_row cs conds sel idx = .error e →
        e = "No value found" ∨ e = "Only equality condition is allowed") := by
  refine ⟨?_, ?_, ?_, ?_, ?_⟩
  · intro env h
    cases hc : env.connectResult with
    | some err => exact ⟨cache, by simp [supervisorIteration, hc]⟩
    | none =>
      cases h2 : (subscribeRun keys db env.sub cache).2 with
      | some err =>
        exact ⟨(subscribeRun keys db env.sub cache).1,
          by simp [supervisorIteration, hc, h2]⟩
      | none =>
        rcases h with h | h
        · exact absurd hc h
        · exact absurd h2 h
  · intro envs
    induction envs with
    | nil => intro c _; simp [supervisorRun]
    | cons env rest ih =>
      intro c h
      cases hc : env.connectResult with
      | none => exact absurd hc (h env (List.mem_cons_self env rest))
      | some err =>
        have := ih c (fun e he => h e (List.mem_cons_of_mem env he))
        simp only [supervisorRun, supervisorIteration, hc, List.length_cons,
          ih c (fun e he => h e (List.mem_cons_of_mem env he))]
        ring
  · intro fetch rest
    simp [processMessages]
  · intro fetch msg rest hkind
    simp [processMessages, hkind]
  · intro t cs conds sel idx e h
    cases hh : conds.head? with
    | none =>
      simp [Redis.find_table_row, hh] at h
      exact Or.inr h.symm
    | some cond =>
      cases cond with
      | equals f v =>
        by_cases hf : f = "field"
        · cases hl : t.lookup v with
          | some obj => simp [Redis.find_table_row, hh, hf, hl] at h
          | none =>
            simp [Redis.find_table_row, hh, hf, hl] at h
            exact Or.inl h.symm
        · simp [Redis.find_table_row, hh, hf] at h
          exact Or.inr h.symm
      | betweenDates f lo hi =>
        simp [Redis.find_table_row, hh] at h
        exact Or.inr h.symm
      | fromDate f lo =>
        simp [Redis.find_table_row, hh] at h
        exact Or.inr h.symm
      | toDate f hi =>
        simp [Redis.find_table_row, hh] at h
        exact Or.inr h.symm

/-- C8 witness. -/
theorem supervisor_retry_forever_witness :
    ∃ c, supervisorIteration ["app_map"] 0
        ⟨some "connection refused", ⟨fun _ => .ok none, fun _ => none, []⟩⟩ []
      = .retryAfterDelay RETRY_AFTER c :=
  (supervisor_retry_forever ["app_map"] 0 []).1
    ⟨some "connection refused", ⟨fun _ => .ok none, fun _ => none, []⟩⟩
    (Or.inl (by simp))

end RedisTable
